import Mathlib

/-!
Verification of `metric_evaluator.py` (VLLM-VQA-benchmark-pipelines/pipeline_metrics).

The source is a single pandas-based evaluator class `MetricEvaluator` with
methods `read_file`, `validate_data`, `calculate_metrics_by_id`,
`calculate_metrics_by_doc_type`, `group_by_doc_question` and
`calculate_metrics_general`.  The shallow embedding below models pandas
DataFrames as `Table` (a column-name list plus rows of string cells), the
external metric libraries (jiwer `wer`/`cer`, sacrebleu `corpus_bleu`) and the
answer decoder (`ast.literal_eval`) as a bundle of function parameters
`MetricLib`, and every fallible operation as `Except EvalError`.
-/

namespace MetricEvaluatorModel

/-- Errors of the evaluator, one constructor per error class of the spec's
taxonomy plus `keyError` for pandas column/row lookups that cannot occur on
well-formed input. -/
inductive EvalError where
  | formatError
  | schemaMismatch
  | rowCountMismatch
  | decodeError
  | keyError
  deriving DecidableEq, Repr

instance exceptDecEq {ε α : Type} [DecidableEq ε] [DecidableEq α] :
    DecidableEq (Except ε α)
  | .ok x, .ok y =>
    if h : x = y then .isTrue (congrArg _ h)
    else .isFalse (fun hh => h (Except.ok.inj hh))
  | .error e, .error f =>
    if h : e = f then .isTrue (congrArg _ h)
    else .isFalse (fun hh => h (Except.error.inj hh))
  | .ok _, .error _ => .isFalse Except.noConfusion
  | .error _, .ok _ => .isFalse Except.noConfusion

/-- A loaded pandas DataFrame: a sequence of column names and a sequence of
rows, each row a sequence of string cells aligned with the columns. -/
structure Table where
  columns : List String
  rows : List (List String)
  deriving DecidableEq, Repr

/-- A table is well formed when every row has exactly one cell per column. -/
def Table.WF (t : Table) : Prop :=
  ∀ r ∈ t.rows, r.length = t.columns.length

instance (t : Table) : Decidable t.WF := by
  unfold Table.WF; infer_instance

/-- A cell of the derived per-row metrics table: string cells copied from the
input and numeric metric cells. -/
inductive Cell where
  | str (s : String)
  | num (q : ℚ)
  deriving DecidableEq, Repr

/-- The per-row result DataFrame built by `calculate_metrics_by_id`. -/
structure RTable where
  columns : List String
  rows : List (List Cell)
  deriving DecidableEq, Repr

/-- The external libraries the source calls out to, as function parameters:
jiwer's `wer` and `cer` (reference first, hypothesis second), sacrebleu's
`corpus_bleu` (system/hypothesis stream first, list of reference streams
second), and `ast.literal_eval` restricted to lists of strings. -/
structure MetricLib where
  wer : List String → List String → ℚ
  cer : List String → List String → ℚ
  corpus_bleu : List String → List (List String) → ℚ
  literal_eval : String → Option (List String)

/-- Index of a column name in a column list (`df[col]` lookup). -/
def colIdx (c : String) : List String → Option Nat
  | [] => none
  | c' :: rest => if c' = c then some 0 else (colIdx c rest).map (· + 1)

/-- `t[col][i]`: the cell of column `col` in row `i`. -/
def getCell (t : Table) (c : String) (i : Nat) : Option String := do
  let j ← colIdx c t.columns
  let row ← t.rows[i]?
  row[j]?

/-- `df.drop(columns=c)`: remove the named column and the matching cell of
every row. -/
def dropColumn (t : Table) (c : String) : Table :=
  ⟨t.columns.filter (fun x => x ≠ c),
   t.rows.map (fun r => ((t.columns.zip r).filter (fun p => p.1 ≠ c)).map Prod.snd)⟩

/- ## Loading (`read_file`) -/

/-- Split a character sequence at every occurrence of the delimiter. -/
def splitCells (d : Char) : List Char → List (List Char)
  | [] => [[]]
  | c :: cs =>
    match splitCells d cs with
    | [] => [[c]]
    | cur :: rest => if c = d then [] :: cur :: rest else (c :: cur) :: rest

/-- Join character sequences with a delimiter between consecutive ones. -/
def joinD (d : Char) : List (List Char) → List Char
  | [] => []
  | [c] => c
  | c :: cs => c ++ d :: joinD d cs

/-- Modelled from the spec: `pandas.read_csv` with an explicit separator —
the first non-blank line is the header, blank lines are skipped, a row with
more fields than the header is a parse error (`none`), a row with fewer
fields is padded at the end (pandas fills missing trailing cells with NaN,
modelled as `""`). -/
def parseTable (d : Char) (content : String) : Option Table :=
  match (splitCells '\n' content.toList).filter (fun l => l ≠ []) with
  | [] => none
  | header :: rest =>
    let cols := splitCells d header
    let rows := rest.map (splitCells d)
    if rows.all (fun r => r.length ≤ cols.length) then
      some ⟨cols.map String.mk,
            rows.map (fun r => r.map String.mk ++ List.replicate (cols.length - r.length) "")⟩
    else none

/-- `read_file`: try comma-delimited parsing, fall back to tab-delimited
parsing on a parse error, fail with `formatError` when both fail. -/
def read_file (content : String) : Except EvalError Table :=
  match parseTable ',' content with
  | some t => .ok t
  | none =>
    match parseTable '\t' content with
    | some t => .ok t
    | none => .error .formatError

/-- Encode a logical table as a delimited text file (header line then one
line per row, fields joined by the delimiter). -/
def encode (d : Char) (t : Table) : String :=
  String.mk (joinD '\n'
    ((joinD d (t.columns.map String.toList)) ::
      t.rows.map (fun r => joinD d (r.map String.toList))))

/-- The table obtained when a tab-delimited file is (successfully) parsed as
comma-delimited comma-free content: one column whose header and cells are the
tab-joined originals. -/
def collapseTab (t : Table) : Table :=
  ⟨[String.mk (joinD '\t' (t.columns.map String.toList))],
   t.rows.map (fun r => [String.mk (joinD '\t' (r.map String.toList))])⟩

/-- A cell (or column name) that encodes cleanly: nonempty, and free of the
two candidate delimiters and the line separator. -/
def cellOk (s : String) : Prop :=
  s.toList ≠ [] ∧ ',' ∉ s.toList ∧ '\t' ∉ s.toList ∧ '\n' ∉ s.toList

instance (s : String) : Decidable (cellOk s) := by
  unfold cellOk; infer_instance

/-- A table whose encoding as a delimited file is faithful: at least one
column, aligned rows, and every name and cell `cellOk`. -/
def Table.Encodable (t : Table) : Prop :=
  t.columns ≠ [] ∧ (∀ c ∈ t.columns, cellOk c) ∧
    ∀ r ∈ t.rows, r.length = t.columns.length ∧ ∀ s ∈ r, cellOk s

instance (t : Table) : Decidable t.Encodable := by
  unfold Table.Encodable; infer_instance

/- ## Validation and construction -/

/-- `validate_data`: order-sensitive column-list comparison, then row-count
comparison. -/
def validate_data (tc pc : Table) : Except EvalError Unit :=
  if tc.columns ≠ pc.columns then .error .schemaMismatch
  else if tc.rows.length ≠ pc.rows.length then .error .rowCountMismatch
  else .ok ()

/-- `MetricEvaluator.__init__`: load both files, then validate. -/
def MetricEvaluator.init (trueContent predContent : String) :
    Except EvalError (Table × Table) := do
  let tc ← read_file trueContent
  let pc ← read_file predContent
  validate_data tc pc
  .ok (tc, pc)

/- ## Per-row metrics (`calculate_metrics_by_id`) -/

/-- `ast.literal_eval(t['answers'][i])`: fetch the answers cell of row `i`
and decode it into a string list. -/
def decodeAt (lib : MetricLib) (t : Table) (i : Nat) :
    Except EvalError (List String) :=
  match getCell t "answers" i with
  | none => .error .keyError
  | some s =>
    match lib.literal_eval s with
    | none => .error .decodeError
    | some l => .ok l

/-- One output row of `calculate_metrics_by_id`: the reference row without
the `answear_bbox` cell, then the raw predicted answers cell, then
`wer(Y_true, y_pred)`, `cer(Y_true, y_pred)` and
`corpus_bleu(Y_true, [y_pred]).score` exactly as the source calls them. -/
def buildRow (lib : MetricLib) (tc pc : Table) (i : Nat) :
    Except EvalError (List Cell) :=
  match (dropColumn tc "answear_bbox").rows[i]?, getCell pc "answers" i with
  | some bc, some sP => do
    let yT ← decodeAt lib tc i
    let yP ← decodeAt lib pc i
    .ok (bc.map Cell.str ++
      [Cell.str sP, Cell.num (lib.wer yT yP), Cell.num (lib.cer yT yP),
       Cell.num (lib.corpus_bleu yT [yP])])
  | _, _ => .error .keyError

/-- Run a fallible computation over a list in order, stopping at the first
error (the loop body of the source's `for row in range(len(...))`). -/
def mapME {α β : Type} (f : α → Except EvalError β) :
    List α → Except EvalError (List β)
  | [] => .ok []
  | a :: as => do
    let b ← f a
    let bs ← mapME f as
    .ok (b :: bs)

/-- `calculate_metrics_by_id`: drop `answear_bbox` from the reference table,
compute the per-row metrics for every row index in order, and append the
four derived columns. -/
def calculate_metrics_by_id (lib : MetricLib) (tc pc : Table) :
    Except EvalError RTable :=
  match mapME (buildRow lib tc pc) (List.range tc.rows.length) with
  | .error e => .error e
  | .ok rows =>
    .ok ⟨(dropColumn tc "answear_bbox").columns ++
          ["pred_answers", "wer_error", "cer_error", "bleu_score"], rows⟩

/-- The three numeric metric cells at the end of a per-row result row
(wer_error, cer_error, bleu_score). -/
def rowMetricCells (cells : List Cell) : Option (ℚ × ℚ × ℚ) :=
  match cells.reverse with
  | Cell.num b :: Cell.num c :: Cell.num w :: _ => some (w, c, b)
  | _ => none

/- ## Corpus metrics (`calculate_metrics_general`) -/

/-- The flattening loop of `calculate_metrics_general`: decode the reference
and predicted answers of every row and extend the two accumulators. -/
def collectBoth (lib : MetricLib) (tc pc : Table) :
    List Nat → Except EvalError (List String × List String)
  | [] => .ok ([], [])
  | i :: rest => do
    let yT ← decodeAt lib tc i
    let yP ← decodeAt lib pc i
    let (ts, ps) ← collectBoth lib tc pc rest
    .ok (yT ++ ts, yP ++ ps)

/-- `calculate_metrics_general`: flatten all answers, then one `wer`, one
`cer` and one `corpus_bleu` call over the flattened sequences. -/
def calculate_metrics_general (lib : MetricLib) (tc pc : Table) :
    Except EvalError (ℚ × ℚ × ℚ) :=
  match collectBoth lib tc pc (List.range tc.rows.length) with
  | .error e => .error e
  | .ok (ts, ps) => .ok (lib.wer ts ps, lib.cer ts ps, lib.corpus_bleu ts [ps])

/- ## A concrete answer decoder (for witnesses and concrete runs) -/

/-- Drop leading spaces. -/
def skipSpaces (cs : List Char) : List Char := cs.dropWhile (· = ' ')

/-- Consume characters up to a closing quote. -/
def grabStr (q : Char) : List Char → Option (List Char × List Char)
  | [] => none
  | c :: cs =>
    if c = q then some ([], cs)
    else (grabStr q cs).map (fun p => (c :: p.1, p.2))

/-- Parse one quoted string literal (single or double quotes, no escapes). -/
def parseStrLit (cs : List Char) : Option (String × List Char) :=
  match skipSpaces cs with
  | q :: rest =>
    if q = '\'' ∨ q = '"' then (grabStr q rest).map (fun p => (String.mk p.1, p.2))
    else none
  | [] => none

/-- Parse the comma-separated items after the opening bracket. -/
def parseItems : Nat → List Char → Option (List String)
  | 0, _ => none
  | fuel + 1, cs =>
    match parseStrLit cs with
    | none => none
    | some (s, rest) =>
      match skipSpaces rest with
      | ']' :: tail => if skipSpaces tail = [] then some [s] else none
      | ',' :: tail => (parseItems fuel tail).map (s :: ·)
      | _ => none

/-- Modelled from the spec: `ast.literal_eval` restricted to list literals of
quoted string items, e.g. `"['cat', 'dog']"`; anything else is a decode
failure. -/
def pyListDecode (s : String) : Option (List String) :=
  match skipSpaces s.toList with
  | '[' :: rest =>
    match skipSpaces rest with
    | ']' :: tail => if skipSpaces tail = [] then some [] else none
    | _ => parseItems (rest.length + 1) rest
  | _ => none

/- ## Grouping (`calculate_metrics_by_doc_type`, `group_by_doc_question`) -/

/-- A row of a per-row metrics table as consumed by the grouping methods:
the grouping labels and the three metric columns. -/
structure MRow where
  doc_class : String
  question_type : String
  wer_error : ℚ
  cer_error : ℚ
  bleu_score : ℚ
  deriving DecidableEq, Repr

/-- A row of the per-document-type metrics table. -/
structure GroupRow where
  doc_class : String
  wer_error : ℚ
  cer_error : ℚ
  bleu_score : ℚ
  deriving DecidableEq, Repr

/-- A row of the per-(document type × question type) metrics table. -/
structure GroupRow2 where
  doc_class : String
  question_type : String
  wer_error : ℚ
  cer_error : ℚ
  bleu_score : ℚ
  deriving DecidableEq, Repr

/-- Arithmetic mean of a numeric column over a list of rows (pandas
`Series.mean`). -/
def meanOf {α : Type} (f : α → ℚ) (l : List α) : ℚ :=
  (l.map f).sum / l.length

/-- Accumulator pass of `firstSeen`: keep each value not seen before. -/
def firstSeenAux {α : Type} [DecidableEq α] (seen : List α) : List α → List α
  | [] => []
  | a :: rest =>
    if a ∈ seen then firstSeenAux seen rest
    else a :: firstSeenAux (a :: seen) rest

/-- The distinct values of a list in order of first appearance. -/
def firstSeen {α : Type} [DecidableEq α] (l : List α) : List α :=
  firstSeenAux [] l

/-- Insert an element into a list directly before the first element it
relates to (the insertion step of a stable insertion sort). -/
def insertLe {α : Type} (le : α → α → Bool) (a : α) : List α → List α
  | [] => [a]
  | b :: t => if le a b then a :: b :: t else b :: insertLe le a t

/-- Stable insertion sort by a boolean relation. -/
def insSort {α : Type} (le : α → α → Bool) : List α → List α
  | [] => []
  | a :: rest => insertLe le a (insSort le rest)

/-- Modelled from the spec: pandas `Series.value_counts().index` — the
distinct values sorted by descending frequency, ties broken by first
appearance (a stable descending-count sort of the first-seen list). -/
def value_counts {α : Type} [DecidableEq α] (l : List α) : List α :=
  insSort (fun a b => l.count b ≤ l.count a) (firstSeen l)

/-- `calculate_metrics_by_doc_type`: one output row per entry of
`value_counts` over the `doc_class` column, holding the means of the three
metric columns over the rows of that class. -/
def calculate_metrics_by_doc_type (df : List MRow) : List GroupRow :=
  let doc_types := value_counts (df.map (·.doc_class))
  doc_types.map (fun c =>
    let g := df.filter (fun r => r.doc_class = c)
    ⟨c, meanOf (·.wer_error) g, meanOf (·.cer_error) g, meanOf (·.bleu_score) g⟩)

/-- Strict lexicographic comparison of character sequences (an executable
equivalent of the `List Char` order underlying `String`'s order). -/
def charListLtB : List Char → List Char → Bool
  | _, [] => false
  | [], _ :: _ => true
  | a :: as, b :: bs =>
    if a < b then true
    else if b < a then false
    else charListLtB as bs

/-- Executable strict order on strings, equivalent to `String`'s `<`. -/
def strLtB (a b : String) : Bool := charListLtB a.toList b.toList

/-- Executable order on strings, equivalent to `String`'s `≤`. -/
def strLeB (a b : String) : Bool := !(strLtB b a)

/-- Lexicographic order on (doc_class, question_type) pairs, the key order
of pandas `groupby(sort=True)`. -/
def lexLe (a b : String × String) : Bool :=
  strLtB a.1 b.1 || (a.1 == b.1 && strLeB a.2 b.2)

/-- `group_by_doc_question`: pandas `groupby(['doc_class', 'question_type'])`
with the default key sorting — one output row per distinct pair, in
lexicographic key order, holding the means of the three metric columns. -/
def group_by_doc_question (df : List MRow) : List GroupRow2 :=
  let keys := insSort lexLe (firstSeen (df.map (fun r => (r.doc_class, r.question_type))))
  keys.map (fun k =>
    let g := df.filter (fun r => r.doc_class = k.1 ∧ r.question_type = k.2)
    ⟨k.1, k.2, meanOf (·.wer_error) g, meanOf (·.cer_error) g, meanOf (·.bleu_score) g⟩)

/- ## Fixtures for concrete runs -/

/-- The answers field of row `i` is present but its text does not decode as
a serialized string sequence. -/
def decodeFailsAt (lib : MetricLib) (t : Table) (i : Nat) : Prop :=
  ∃ s, getCell t "answers" i = some s ∧ lib.literal_eval s = none

/-- An arbitrary concrete instantiation of the external metric libraries,
used to run the model on concrete inputs; the three metric functions are
chosen so that concrete values reveal which argument went where. -/
def sampleLib : MetricLib :=
  ⟨fun a b => (a.length : ℚ) - (b.length : ℚ),
   fun a b => (a.length : ℚ) + (b.length : ℚ),
   fun sys refs => (sys.length : ℚ) * 100 + ((refs.map List.length).sum : ℚ),
   pyListDecode⟩

/-- The column schema of the input files described by the spec. -/
def sampleColumns : List String :=
  ["id", "doc_class", "question_type", "answers", "answear_bbox"]

/-- One-row reference table with answers `['hello world']`. -/
def refOneRow : Table :=
  ⟨sampleColumns, [["1", "invoice", "extraction", "['hello world']", "[]"]]⟩

/-- One-row prediction table with answers `['hello']`. -/
def predOneRow : Table :=
  ⟨sampleColumns, [["1", "invoice", "extraction", "['hello']", "[]"]]⟩

/-- One-row prediction table whose answers field is not a serialized list. -/
def predBadRow : Table :=
  ⟨sampleColumns, [["1", "invoice", "extraction", "bad", "[]"]]⟩

/-- A two-column delimiter-free logical table. -/
def twoColTable : Table := ⟨["a", "b"], [["1", "2"]]⟩

/-- A one-column delimiter-free logical table. -/
def oneColTable : Table := ⟨["a"], [["1"]]⟩

/-- A small per-row metrics table with two document classes. -/
def sampleMRows : List MRow :=
  [⟨"invoice", "q1", 1, 2, 3⟩, ⟨"receipt", "q1", 3, 4, 5⟩, ⟨"invoice", "q2", 5, 6, 7⟩]

instance (lib : MetricLib) (t : Table) (i : Nat) :
    Decidable (decodeFailsAt lib t i) :=
  match h : getCell t "answers" i with
  | none =>
    isFalse (by
      rintro ⟨s, hs, _⟩
      rw [h] at hs
      cases hs)
  | some s =>
    match h2 : lib.literal_eval s with
    | none => isTrue ⟨s, h, h2⟩
    | some l =>
      isFalse (by
        rintro ⟨s', hs', he'⟩
        rw [h] at hs'
        cases hs'
        rw [h2] at he'
        cases he')

/- ## Helper lemmas: cells and columns -/

lemma colIdx_lt {c : String} : ∀ {l : List String} {j : Nat},
    colIdx c l = some j → j < l.length := by
  intro l
  induction l with
  | nil => intro j h; simp [colIdx] at h
  | cons c' rest ih =>
    intro j h
    simp only [colIdx] at h
    by_cases hc : c' = c
    · simp [hc] at h
      simp only [List.length_cons]
      omega
    · simp [hc] at h
      obtain ⟨j', hj', rfl⟩ := h
      have := ih hj'
      simp only [List.length_cons]
      omega

lemma colIdx_isSome_of_mem {c : String} {l : List String} (h : c ∈ l) :
    ∃ j, colIdx c l = some j := by
  induction l with
  | nil => simp at h
  | cons c' rest ih =>
    simp only [colIdx]
    by_cases hc : c' = c
    · exact ⟨0, by simp [hc]⟩
    · have : c ∈ rest := by
        rcases List.mem_cons.mp h with h1 | h1
        · exact absurd h1.symm hc
        · exact h1
      obtain ⟨j, hj⟩ := ih this
      exact ⟨j + 1, by simp [hc, hj]⟩

lemma getCell_isSome {t : Table} {c : String} {i : Nat}
    (hwf : t.WF) (hc : c ∈ t.columns) (hi : i < t.rows.length) :
    ∃ s, getCell t c i = some s := by
  obtain ⟨j, hj⟩ := colIdx_isSome_of_mem hc
  have hjlt : j < t.columns.length := colIdx_lt hj
  obtain ⟨row, hrow⟩ : ∃ row, t.rows[i]? = some row := by
    exact ⟨t.rows[i], List.getElem?_eq_getElem hi⟩
  have hrmem : row ∈ t.rows := List.getElem?_mem hrow
  have hlen : row.length = t.columns.length := hwf row hrmem
  obtain ⟨s, hs⟩ : ∃ s, row[j]? = some s := by
    have hj2 : j < row.length := by omega
    exact ⟨row[j], List.getElem?_eq_getElem hj2⟩
  exact ⟨s, by simp [getCell, hj, hrow, hs]⟩

lemma dropColumn_rows_length (t : Table) (c : String) :
    (dropColumn t c).rows.length = t.rows.length := by
  simp [dropColumn]

lemma dropColumn_columns (t : Table) (c : String) :
    (dropColumn t c).columns = t.columns.filter (fun x => x ≠ c) := rfl

/- ## Helper lemmas: mapME -/

lemma mapME_ok_length {α β : Type} {f : α → Except EvalError β} :
    ∀ {l : List α} {bs : List β}, mapME f l = .ok bs → bs.length = l.length := by
  intro l
  induction l with
  | nil => intro bs h; simp only [mapME] at h; cases h; rfl
  | cons a as ih =>
    intro bs h
    simp only [mapME, bind, Except.bind] at h
    cases hfa : f a with
    | error e => rw [hfa] at h; cases h
    | ok b =>
      rw [hfa] at h
      cases hrest : mapME f as with
      | error e => rw [hrest] at h; cases h
      | ok bs' =>
        rw [hrest] at h
        cases h
        simp [ih hrest]

lemma mapME_ok_get {α β : Type} {f : α → Except EvalError β} :
    ∀ {l : List α} {bs : List β}, mapME f l = .ok bs →
      ∀ (k : Nat) (a : α), l[k]? = some a →
        ∃ b, bs[k]? = some b ∧ f a = .ok b := by
  intro l
  induction l with
  | nil => intro bs h k a ha; simp at ha
  | cons x xs ih =>
    intro bs h k a ha
    simp only [mapME, bind, Except.bind] at h
    cases hfa : f x with
    | error e => rw [hfa] at h; cases h
    | ok b =>
      rw [hfa] at h
      cases hrest : mapME f xs with
      | error e => rw [hrest] at h; cases h
      | ok bs' =>
        rw [hrest] at h
        cases h
        cases k with
        | zero =>
          simp at ha
          subst ha
          refine ⟨b, ?_, hfa⟩
          simp
        | succ k' =>
          simp only [List.getElem?_cons_succ] at ha ⊢
          exact ih hrest k' a ha

lemma mapME_ok_of_forall {α β : Type} {f : α → Except EvalError β} :
    ∀ {l : List α}, (∀ a ∈ l, ∃ b, f a = .ok b) →
      ∃ bs, mapME f l = .ok bs := by
  intro l
  induction l with
  | nil => intro _; exact ⟨[], rfl⟩
  | cons x xs ih =>
    intro h
    obtain ⟨b, hb⟩ := h x (by simp)
    obtain ⟨bs, hbs⟩ := ih (fun a ha => h a (by simp [ha]))
    exact ⟨b :: bs, by simp [mapME, bind, Except.bind, hb, hbs]⟩

lemma mapME_error_mem {α β : Type} {f : α → Except EvalError β} :
    ∀ {l : List α} {e : EvalError}, mapME f l = .error e →
      ∃ a ∈ l, f a = .error e := by
  intro l
  induction l with
  | nil => intro e h; simp only [mapME] at h; cases h
  | cons x xs ih =>
    intro e h
    simp only [mapME, bind, Except.bind] at h
    cases hfa : f x with
    | error e' =>
      rw [hfa] at h
      cases h
      exact ⟨x, by simp, hfa⟩
    | ok b =>
      rw [hfa] at h
      cases hrest : mapME f xs with
      | error e' =>
        rw [hrest] at h
        cases h
        obtain ⟨a, ha, hfa'⟩ := ih hrest
        exact ⟨a, by simp [ha], hfa'⟩
      | ok bs' => rw [hrest] at h; cases h

lemma mapME_error_of_mem {α β : Type} {f : α → Except EvalError β}
    {e : EvalError} :
    ∀ {l : List α}, (∀ a ∈ l, f a = .error e ∨ ∃ b, f a = .ok b) →
      (∃ a ∈ l, f a = .error e) → mapME f l = .error e := by
  intro l
  induction l with
  | nil => intro _ hex; simp at hex
  | cons x xs ih =>
    intro hall hex
    rcases hall x (by simp) with hx | ⟨b, hb⟩
    · simp [mapME, bind, Except.bind, hx]
    · have hex' : ∃ a ∈ xs, f a = .error e := by
        obtain ⟨a, ha, hfa⟩ := hex
        rcases List.mem_cons.mp ha with rfl | ha'
        · rw [hb] at hfa; cases hfa
        · exact ⟨a, ha', hfa⟩
      have := ih (fun a ha => hall a (by simp [ha])) hex'
      simp [mapME, bind, Except.bind, hb, this]

/- ## Helper lemmas: decodeAt and buildRow -/

lemma decodeAt_ok_iff {lib : MetricLib} {t : Table} {i : Nat} {l : List String} :
    decodeAt lib t i = .ok l ↔
      ∃ s, getCell t "answers" i = some s ∧ lib.literal_eval s = some l := by
  unfold decodeAt
  cases hg : getCell t "answers" i with
  | none => simp
  | some s =>
    cases he : lib.literal_eval s with
    | none => simp [he]
    | some l' => simp [he, eq_comm]

lemma decodeAt_error_cases {lib : MetricLib} {t : Table} {i : Nat} {e : EvalError}
    (h : decodeAt lib t i = .error e) :
    (getCell t "answers" i = none ∧ e = .keyError) ∨
      (decodeFailsAt lib t i ∧ e = .decodeError) := by
  unfold decodeAt at h
  cases hg : getCell t "answers" i with
  | none => rw [hg] at h; cases h; exact Or.inl ⟨rfl, rfl⟩
  | some s =>
    rw [hg] at h
    cases he : lib.literal_eval s with
    | none =>
      simp only [he] at h; cases h
      exact Or.inr ⟨⟨s, hg, he⟩, rfl⟩
    | some l => simp only [he] at h; cases h

lemma decodeAt_error_of_fails {lib : MetricLib} {t : Table} {i : Nat}
    (h : decodeFailsAt lib t i) : decodeAt lib t i = .error .decodeError := by
  obtain ⟨s, hg, he⟩ := h
  unfold decodeAt
  rw [hg]
  simp only [he]

lemma decodeAt_isOk_of_not_fails {lib : MetricLib} {t : Table} {i : Nat}
    (hwf : t.WF) (hc : "answers" ∈ t.columns) (hi : i < t.rows.length)
    (h : ¬ decodeFailsAt lib t i) : ∃ l, decodeAt lib t i = .ok l := by
  obtain ⟨s, hs⟩ := getCell_isSome hwf hc hi
  cases he : lib.literal_eval s with
  | none => exact absurd ⟨s, hs, he⟩ h
  | some l =>
    refine ⟨l, ?_⟩
    unfold decodeAt
    rw [hs]
    simp only [he]

lemma buildRow_eq_ok {lib : MetricLib} {tc pc : Table} {i : Nat} {cells : List Cell}
    (h : buildRow lib tc pc i = .ok cells) :
    ∃ bc sP yT yP, (dropColumn tc "answear_bbox").rows[i]? = some bc ∧
      getCell pc "answers" i = some sP ∧
      decodeAt lib tc i = .ok yT ∧ decodeAt lib pc i = .ok yP ∧
      cells = bc.map Cell.str ++
        [Cell.str sP, Cell.num (lib.wer yT yP), Cell.num (lib.cer yT yP),
         Cell.num (lib.corpus_bleu yT [yP])] := by
  unfold buildRow at h
  cases hbc : (dropColumn tc "answear_bbox").rows[i]? with
  | none => rw [hbc] at h; cases h
  | some bc =>
    cases hsp : getCell pc "answers" i with
    | none => rw [hbc, hsp] at h; cases h
    | some sP =>
      rw [hbc, hsp] at h
      simp only [bind, Except.bind] at h
      cases hyT : decodeAt lib tc i with
      | error e => rw [hyT] at h; cases h
      | ok yT =>
        rw [hyT] at h
        cases hyP : decodeAt lib pc i with
        | error e => rw [hyP] at h; cases h
        | ok yP =>
          rw [hyP] at h
          cases h
          exact ⟨bc, sP, yT, yP, rfl, rfl, rfl, rfl, rfl⟩

lemma buildRow_eq_ok_of {lib : MetricLib} {tc pc : Table} {i : Nat}
    {bc : List String} {sP : String} {yT yP : List String}
    (hbc : (dropColumn tc "answear_bbox").rows[i]? = some bc)
    (hsp : getCell pc "answers" i = some sP)
    (hyT : decodeAt lib tc i = .ok yT) (hyP : decodeAt lib pc i = .ok yP) :
    buildRow lib tc pc i = .ok (bc.map Cell.str ++
      [Cell.str sP, Cell.num (lib.wer yT yP), Cell.num (lib.cer yT yP),
       Cell.num (lib.corpus_bleu yT [yP])]) := by
  unfold buildRow
  rw [hbc, hsp]
  simp only [bind, Except.bind]
  rw [hyT, hyP]

lemma buildRow_error_cases {lib : MetricLib} {tc pc : Table} {i : Nat}
    {e : EvalError}
    (hwfT : tc.WF) (hwfP : pc.WF)
    (hcT : "answers" ∈ tc.columns) (hcP : "answers" ∈ pc.columns)
    (hiT : i < tc.rows.length) (hiP : i < pc.rows.length)
    (h : buildRow lib tc pc i = .error e) :
    e = .decodeError ∧ (decodeFailsAt lib tc i ∨ decodeFailsAt lib pc i) := by
  obtain ⟨bc, hbc⟩ : ∃ bc, (dropColumn tc "answear_bbox").rows[i]? = some bc := by
    have hdl : i < (dropColumn tc "answear_bbox").rows.length := by
      rw [dropColumn_rows_length]
      exact hiT
    exact ⟨(dropColumn tc "answear_bbox").rows[i], List.getElem?_eq_getElem hdl⟩
  obtain ⟨sP, hsp⟩ := getCell_isSome hwfP hcP hiP
  unfold buildRow at h
  rw [hbc, hsp] at h
  simp only [bind, Except.bind] at h
  cases hyT : decodeAt lib tc i with
  | error e' =>
    rw [hyT] at h
    cases h
    rcases decodeAt_error_cases hyT with ⟨hnone, _⟩ | ⟨hfail, rfl⟩
    · obtain ⟨s, hs⟩ := getCell_isSome hwfT hcT hiT
      rw [hs] at hnone; cases hnone
    · exact ⟨rfl, Or.inl hfail⟩
  | ok yT =>
    rw [hyT] at h
    cases hyP : decodeAt lib pc i with
    | error e' =>
      rw [hyP] at h
      cases h
      rcases decodeAt_error_cases hyP with ⟨hnone, _⟩ | ⟨hfail, rfl⟩
      · rw [hsp] at hnone; cases hnone
      · exact ⟨rfl, Or.inr hfail⟩
    | ok yP => rw [hyP] at h; cases h

lemma buildRow_ok_of_not_fails {lib : MetricLib} {tc pc : Table} {i : Nat}
    (hwfT : tc.WF) (hwfP : pc.WF)
    (hcT : "answers" ∈ tc.columns) (hcP : "answers" ∈ pc.columns)
    (hiT : i < tc.rows.length) (hiP : i < pc.rows.length)
    (hT : ¬ decodeFailsAt lib tc i) (hP : ¬ decodeFailsAt lib pc i) :
    ∃ cells, buildRow lib tc pc i = .ok cells := by
  obtain ⟨bc, hbc⟩ : ∃ bc, (dropColumn tc "answear_bbox").rows[i]? = some bc := by
    have hdl : i < (dropColumn tc "answear_bbox").rows.length := by
      rw [dropColumn_rows_length]
      exact hiT
    exact ⟨(dropColumn tc "answear_bbox").rows[i], List.getElem?_eq_getElem hdl⟩
  obtain ⟨sP, hsp⟩ := getCell_isSome hwfP hcP hiP
  obtain ⟨yT, hyT⟩ := decodeAt_isOk_of_not_fails hwfT hcT hiT hT
  obtain ⟨yP, hyP⟩ := decodeAt_isOk_of_not_fails hwfP hcP hiP hP
  exact ⟨_, buildRow_eq_ok_of hbc hsp hyT hyP⟩

lemma rowMetricCells_of_row {bc : List Cell} {sP : String} {w c b : ℚ} :
    rowMetricCells (bc ++ [Cell.str sP, Cell.num w, Cell.num c, Cell.num b]) =
      some (w, c, b) := by
  unfold rowMetricCells
  simp [List.reverse_append]

/- ## Helper lemmas: calculate_metrics_by_id -/

lemma calculate_ok_parts {lib : MetricLib} {tc pc : Table} {r : RTable}
    (h : calculate_metrics_by_id lib tc pc = .ok r) :
    r.columns = tc.columns.filter (fun x => x ≠ "answear_bbox") ++
        ["pred_answers", "wer_error", "cer_error", "bleu_score"] ∧
      r.rows.length = tc.rows.length ∧
      ∀ i < tc.rows.length,
        ∃ cells, r.rows[i]? = some cells ∧ buildRow lib tc pc i = .ok cells := by
  unfold calculate_metrics_by_id at h
  cases hm : mapME (buildRow lib tc pc) (List.range tc.rows.length) with
  | error e => rw [hm] at h; cases h
  | ok rows =>
    rw [hm] at h
    cases h
    refine ⟨rfl, ?_, ?_⟩
    · rw [mapME_ok_length hm, List.length_range]
    · intro i hi
      have hr : (List.range tc.rows.length)[i]? = some i := by
        simp [List.getElem?_range, hi]
      obtain ⟨cells, hcell, hbr⟩ := mapME_ok_get hm i i hr
      exact ⟨cells, hcell, hbr⟩

lemma calculate_ok_of_not_fails {lib : MetricLib} {tc pc : Table}
    (hwfT : tc.WF) (hwfP : pc.WF)
    (hcT : "answers" ∈ tc.columns) (hcP : "answers" ∈ pc.columns)
    (hlen : tc.rows.length ≤ pc.rows.length)
    (hok : ∀ i < tc.rows.length,
      ¬ decodeFailsAt lib tc i ∧ ¬ decodeFailsAt lib pc i) :
    ∃ r, calculate_metrics_by_id lib tc pc = .ok r := by
  obtain ⟨rows, hrows⟩ :
      ∃ rows, mapME (buildRow lib tc pc) (List.range tc.rows.length) = .ok rows := by
    refine mapME_ok_of_forall ?_
    intro i hi
    rw [List.mem_range] at hi
    exact buildRow_ok_of_not_fails hwfT hwfP hcT hcP hi (by omega)
      (hok i hi).1 (hok i hi).2
  refine ⟨⟨(dropColumn tc "answear_bbox").columns ++
    ["pred_answers", "wer_error", "cer_error", "bleu_score"], rows⟩, ?_⟩
  unfold calculate_metrics_by_id
  rw [hrows]

/- ## Helper lemmas: stable insertion sort and firstSeen -/

lemma insertLe_perm {α : Type} (le : α → α → Bool) (a : α) :
    ∀ l : List α, List.Perm (insertLe le a l) (a :: l) := by
  intro l
  induction l with
  | nil => simp [insertLe]
  | cons b t ih =>
    simp only [insertLe]
    by_cases hle : le a b
    · simp [hle]
    · simp only [hle, if_neg, Bool.false_eq_true, not_false_eq_true]
      exact List.Perm.trans (List.Perm.cons b ih) (List.Perm.swap a b t)

lemma insSort_perm {α : Type} (le : α → α → Bool) :
    ∀ l : List α, List.Perm (insSort le l) l := by
  intro l
  induction l with
  | nil => simp [insSort]
  | cons a t ih =>
    simp only [insSort]
    exact List.Perm.trans (insertLe_perm le a _) (List.Perm.cons a ih)

lemma pairwise_insertLe {α : Type} {le : α → α → Bool}
    (htrans : ∀ x y z, le x y = true → le y z = true → le x z = true)
    (htot : ∀ x y, le x y = false → le y x = true) (a : α) :
    ∀ {l : List α}, l.Pairwise (fun x y => le x y = true) →
      (insertLe le a l).Pairwise (fun x y => le x y = true) := by
  intro l
  induction l with
  | nil => intro _; simp [insertLe]
  | cons b t ih =>
    intro hp
    rcases List.pairwise_cons.mp hp with ⟨hb, ht⟩
    simp only [insertLe]
    by_cases hle : le a b
    · simp only [hle, if_pos]
      refine List.pairwise_cons.mpr ⟨?_, hp⟩
      intro x hx
      rcases List.mem_cons.mp hx with rfl | hx'
      · exact hle
      · exact htrans a b x hle (hb x hx')
    · simp only [hle, if_neg, Bool.false_eq_true, not_false_eq_true]
      refine List.pairwise_cons.mpr ⟨?_, ih ht⟩
      intro x hx
      have hx' : x ∈ a :: t := (insertLe_perm le a t).mem_iff.mp hx
      rcases List.mem_cons.mp hx' with hxa | hx''
      · rw [hxa]
        exact htot a b (by simpa using hle)
      · exact hb x hx''

lemma pairwise_insSort {α : Type} {le : α → α → Bool}
    (htrans : ∀ x y z, le x y = true → le y z = true → le x z = true)
    (htot : ∀ x y, le x y = false → le y x = true) :
    ∀ l : List α, (insSort le l).Pairwise (fun x y => le x y = true) := by
  intro l
  induction l with
  | nil => simp [insSort]
  | cons a t ih =>
    simp only [insSort]
    exact pairwise_insertLe htrans htot a ih

lemma filter_insertLe_pos {α : Type} {le : α → α → Bool} {p : α → Bool} {a : α}
    (hpa : p a = true) (hskip : ∀ b, le a b = false → p b = false) :
    ∀ l : List α, (insertLe le a l).filter p = a :: l.filter p := by
  intro l
  induction l with
  | nil => simp [insertLe, hpa]
  | cons b t ih =>
    simp only [insertLe]
    by_cases hle : le a b
    · simp [hle, hpa]
    · have hpb : p b = false := hskip b (by simpa using hle)
      simp only [hle, if_neg, Bool.false_eq_true, not_false_eq_true]
      simp [List.filter_cons, hpb, ih]

lemma filter_insertLe_neg {α : Type} {le : α → α → Bool} {p : α → Bool} {a : α}
    (hpa : p a = false) :
    ∀ l : List α, (insertLe le a l).filter p = l.filter p := by
  intro l
  induction l with
  | nil => simp [insertLe, hpa]
  | cons b t ih =>
    simp only [insertLe]
    by_cases hle : le a b
    · simp [hle, hpa]
    · simp only [hle, if_neg, Bool.false_eq_true, not_false_eq_true]
      simp [List.filter_cons, ih]

lemma filter_insSort {α : Type} {le : α → α → Bool} {p : α → Bool}
    (h : ∀ a, p a = true → ∀ b, le a b = false → p b = false) :
    ∀ l : List α, (insSort le l).filter p = l.filter p := by
  intro l
  induction l with
  | nil => simp [insSort]
  | cons a t ih =>
    simp only [insSort]
    by_cases hpa : p a
    · rw [filter_insertLe_pos hpa (h a hpa), ih, List.filter_cons_of_pos hpa]
    · rw [filter_insertLe_neg (by simpa using hpa), ih,
        List.filter_cons_of_neg (by simpa using hpa)]

lemma mem_firstSeenAux {α : Type} [DecidableEq α] :
    ∀ (l : List α) (seen : List α) (x : α),
      x ∈ firstSeenAux seen l ↔ x ∈ l ∧ x ∉ seen := by
  intro l
  induction l with
  | nil => intro seen x; simp [firstSeenAux]
  | cons a rest ih =>
    intro seen x
    simp only [firstSeenAux]
    by_cases ha : a ∈ seen
    · rw [if_pos ha, ih]
      constructor
      · rintro ⟨hx, hs⟩
        exact ⟨List.mem_cons_of_mem a hx, hs⟩
      · rintro ⟨hx, hs⟩
        rcases List.mem_cons.mp hx with rfl | hx'
        · exact absurd ha hs
        · exact ⟨hx', hs⟩
    · rw [if_neg ha]
      simp only [List.mem_cons, ih]
      by_cases hxa : x = a
      · subst hxa
        simp [ha]
      · simp only [hxa]
        tauto

lemma mem_firstSeen {α : Type} [DecidableEq α] :
    ∀ (l : List α) (x : α), x ∈ firstSeen l ↔ x ∈ l := by
  intro l x
  unfold firstSeen
  rw [mem_firstSeenAux]
  simp

lemma nodup_firstSeenAux {α : Type} [DecidableEq α] :
    ∀ (l : List α) (seen : List α), (firstSeenAux seen l).Nodup := by
  intro l
  induction l with
  | nil => intro seen; simp [firstSeenAux]
  | cons a rest ih =>
    intro seen
    simp only [firstSeenAux]
    by_cases ha : a ∈ seen
    · rw [if_pos ha]
      exact ih seen
    · rw [if_neg ha]
      refine List.nodup_cons.mpr ⟨?_, ih (a :: seen)⟩
      intro hmem
      exact ((mem_firstSeenAux rest (a :: seen) a).mp hmem).2 (by simp)

lemma nodup_firstSeen {α : Type} [DecidableEq α] :
    ∀ l : List α, (firstSeen l).Nodup := by
  intro l
  exact nodup_firstSeenAux l []

/- ## Helper lemmas: value_counts -/

lemma value_counts_perm {α : Type} [DecidableEq α] (l : List α) :
    List.Perm (value_counts l) (firstSeen l) :=
  insSort_perm _ _

lemma mem_value_counts {α : Type} [DecidableEq α] {l : List α} {x : α} :
    x ∈ value_counts l ↔ x ∈ l := by
  rw [(value_counts_perm l).mem_iff, mem_firstSeen]

lemma nodup_value_counts {α : Type} [DecidableEq α] (l : List α) :
    (value_counts l).Nodup :=
  (value_counts_perm l).nodup_iff.mpr (nodup_firstSeen l)

lemma pairwise_value_counts {α : Type} [DecidableEq α] (l : List α) :
    (value_counts l).Pairwise (fun a b => l.count b ≤ l.count a) := by
  have := @pairwise_insSort α (fun a b : α => decide (l.count b ≤ l.count a))
    (fun x y z hxy hyz => by
      simp only [decide_eq_true_eq] at *
      omega)
    (fun x y hxy => by
      simp only [decide_eq_false_iff_not, decide_eq_true_eq] at *
      omega)
    (firstSeen l)
  refine List.Pairwise.imp ?_ this
  intro a b h
  simpa using h

lemma value_counts_stable {α : Type} [DecidableEq α] (l : List α) (k : Nat) :
    (value_counts l).filter (fun v => l.count v = k) =
      (firstSeen l).filter (fun v => l.count v = k) := by
  refine filter_insSort ?_ (firstSeen l)
  intro a hpa b hab
  simp only [decide_eq_true_eq, decide_eq_false_iff_not] at *
  omega

/- ## Helper lemmas: splitting and joining delimited text -/

lemma splitCells_ne_nil (d : Char) : ∀ l : List Char, splitCells d l ≠ [] := by
  intro l
  induction l with
  | nil => simp [splitCells]
  | cons c cs ih =>
    simp only [splitCells]
    cases hs : splitCells d cs with
    | nil => simp
    | cons cur rest =>
      by_cases hc : c = d <;> simp [hc]

lemma splitCells_no_delim {d : Char} : ∀ {l : List Char}, d ∉ l →
    splitCells d l = [l] := by
  intro l
  induction l with
  | nil => intro _; rfl
  | cons c cs ih =>
    intro h
    have hc : c ≠ d := fun hh => h (by simp [hh])
    have hcs : d ∉ cs := fun hh => h (by simp [hh])
    simp only [splitCells, ih hcs]
    simp [hc]

lemma splitCells_append {d : Char} : ∀ {c : List Char} (l : List Char), d ∉ c →
    splitCells d (c ++ d :: l) = c :: splitCells d l := by
  intro c
  induction c with
  | nil =>
    intro l _
    simp only [List.nil_append, splitCells]
    cases hs : splitCells d l with
    | nil => exact absurd hs (splitCells_ne_nil d l)
    | cons cur rest => simp
  | cons x xs ih =>
    intro l h
    have hx : x ≠ d := fun hh => h (by simp [hh])
    have hxs : d ∉ xs := fun hh => h (by simp [hh])
    simp only [List.cons_append, splitCells, List.append_eq]
    simp only [hx, if_neg, Bool.false_eq_true, not_false_eq_true]
    rw [ih l hxs]

lemma splitCells_joinD {d : Char} : ∀ {cells : List (List Char)},
    cells ≠ [] → (∀ c ∈ cells, d ∉ c) →
    splitCells d (joinD d cells) = cells := by
  intro cells
  induction cells with
  | nil => intro h _; exact absurd rfl h
  | cons c cs ih =>
    intro _ hfree
    cases cs with
    | nil =>
      simp only [joinD]
      exact splitCells_no_delim (hfree c (by simp))
    | cons c' cs' =>
      have : joinD d (c :: c' :: cs') = c ++ d :: joinD d (c' :: cs') := rfl
      rw [this, splitCells_append _ (hfree c (by simp)),
        ih (by simp) (fun x hx => hfree x (by simp [hx]))]

lemma joinD_ne_nil {d : Char} : ∀ {cells : List (List Char)},
    cells ≠ [] → (∀ c ∈ cells, c ≠ []) → joinD d cells ≠ [] := by
  intro cells
  induction cells with
  | nil => intro h _; exact absurd rfl h
  | cons c cs _ =>
    intro _ hne
    cases cs with
    | nil => exact hne c (by simp)
    | cons c' cs' =>
      have : joinD d (c :: c' :: cs') = c ++ d :: joinD d (c' :: cs') := rfl
      rw [this]
      cases c with
      | nil => simp
      | cons x xs => simp

lemma not_mem_joinD {d x : Char} (hx : x ≠ d) : ∀ {cells : List (List Char)},
    (∀ c ∈ cells, x ∉ c) → x ∉ joinD d cells := by
  intro cells
  induction cells with
  | nil => intro _; simp [joinD]
  | cons c cs ih =>
    intro hfree
    cases cs with
    | nil => exact hfree c (by simp)
    | cons c' cs' =>
      have : joinD d (c :: c' :: cs') = c ++ d :: joinD d (c' :: cs') := rfl
      rw [this]
      intro hmem
      rcases List.mem_append.mp hmem with h1 | h1
      · exact hfree c (by simp) h1
      · rcases List.mem_cons.mp h1 with h2 | h2
        · exact hx h2
        · exact ih (fun y hy => hfree y (by simp [hy])) h2

lemma mk_toList (s : String) : String.mk s.toList = s := rfl

lemma parseTable_cons (d : Char) (content : String) (header : List Char)
    (rest : List (List Char))
    (h : (splitCells '\n' content.toList).filter (fun l => l ≠ []) = header :: rest) :
    parseTable d content =
      if (rest.map (splitCells d)).all
          (fun r => r.length ≤ (splitCells d header).length) then
        some ⟨(splitCells d header).map String.mk,
              (rest.map (splitCells d)).map
                (fun r => r.map String.mk ++
                  List.replicate ((splitCells d header).length - r.length) "")⟩
      else none := by
  unfold parseTable
  rw [h]

lemma encode_lines_shape {d : Char} (hd : d = ',' ∨ d = '\t') {t : Table}
    (ht : t.Encodable) :
    (splitCells '\n' (encode d t).toList).filter (fun l => l ≠ []) =
      (joinD d (t.columns.map String.toList)) ::
        t.rows.map (fun r => joinD d (r.map String.toList)) := by
  obtain ⟨hcne, hcok, hrok⟩ := ht
  have hdnl : d ≠ '\n' := by rcases hd with rfl | rfl <;> decide
  have hlinesfree : ∀ l ∈ (joinD d (t.columns.map String.toList)) ::
      t.rows.map (fun r => joinD d (r.map String.toList)), '\n' ∉ l := by
    intro l hmem
    rcases List.mem_cons.mp hmem with rfl | hmem'
    · refine not_mem_joinD (fun h => hdnl h.symm) ?_
      intro c hc
      obtain ⟨s, hsmem, rfl⟩ := List.mem_map.mp hc
      exact (hcok s hsmem).2.2.2
    · obtain ⟨r, hrmem, rfl⟩ := List.mem_map.mp hmem'
      refine not_mem_joinD (fun h => hdnl h.symm) ?_
      intro c hc
      obtain ⟨s, hsmem, rfl⟩ := List.mem_map.mp hc
      exact ((hrok r hrmem).2 s hsmem).2.2.2
  have hlinesne : ∀ l ∈ (joinD d (t.columns.map String.toList)) ::
      t.rows.map (fun r => joinD d (r.map String.toList)), l ≠ [] := by
    intro l hmem
    rcases List.mem_cons.mp hmem with rfl | hmem'
    · refine joinD_ne_nil (by simpa using hcne) ?_
      intro c hc
      obtain ⟨s, hsmem, rfl⟩ := List.mem_map.mp hc
      simpa using (hcok s hsmem).1
    · obtain ⟨r, hrmem, rfl⟩ := List.mem_map.mp hmem'
      refine joinD_ne_nil ?_ ?_
      · have hlen : r.length = t.columns.length := (hrok r hrmem).1
        have hcpos : 0 < t.columns.length := List.length_pos.mpr hcne
        intro hnil
        have hr0 : r = [] := List.map_eq_nil_iff.mp hnil
        rw [hr0] at hlen
        simp at hlen
        omega
      · intro c hc
        obtain ⟨s, hsmem, rfl⟩ := List.mem_map.mp hc
        simpa using ((hrok r hrmem).2 s hsmem).1
  have h1 : (encode d t).toList = joinD '\n'
      ((joinD d (t.columns.map String.toList)) ::
        t.rows.map (fun r => joinD d (r.map String.toList))) := rfl
  rw [h1, splitCells_joinD (by simp) hlinesfree]
  exact List.filter_eq_self.mpr (fun a ha => by simpa using hlinesne a ha)

lemma parseTable_encode_self {d : Char} (hd : d = ',' ∨ d = '\t') {t : Table}
    (ht : t.Encodable) : parseTable d (encode d t) = some t := by
  obtain ⟨hcne, hcok, hrok⟩ := ht
  have hfree : ∀ s : String, cellOk s → d ∉ s.toList := by
    intro s hs
    rcases hd with rfl | rfl
    · exact hs.2.1
    · exact hs.2.2.1
  rw [parseTable_cons d _ _ _ (encode_lines_shape hd ⟨hcne, hcok, hrok⟩)]
  have hsplit_hl : splitCells d (joinD d (t.columns.map String.toList)) =
      t.columns.map String.toList := by
    refine splitCells_joinD (by simpa using hcne) ?_
    intro c hc
    obtain ⟨s, hsmem, rfl⟩ := List.mem_map.mp hc
    exact hfree s (hcok s hsmem)
  have hsplit_rows : (t.rows.map (fun r => joinD d (r.map String.toList))).map
      (splitCells d) = t.rows.map (fun r => r.map String.toList) := by
    rw [List.map_map]
    refine List.map_congr_left ?_
    intro r hr
    have hrlen : r.length = t.columns.length := (hrok r hr).1
    have hcpos : 0 < t.columns.length := List.length_pos.mpr hcne
    refine splitCells_joinD ?_ ?_
    · intro hnil
      have hr0 : r = [] := List.map_eq_nil_iff.mp hnil
      rw [hr0] at hrlen
      simp at hrlen
      omega
    · intro c hc
      obtain ⟨s, hsmem, rfl⟩ := List.mem_map.mp hc
      exact hfree s ((hrok r hr).2 s hsmem)
  rw [hsplit_hl, hsplit_rows]
  have hall : (t.rows.map (fun r => r.map String.toList)).all
      (fun r => r.length ≤ (t.columns.map String.toList).length) = true := by
    rw [List.all_eq_true]
    intro r' hr'
    obtain ⟨r, hr, rfl⟩ := List.mem_map.mp hr'
    simp [(hrok r hr).1]
  rw [if_pos hall]
  congr 1
  have hc : (t.columns.map String.toList).map String.mk = t.columns := by
    rw [List.map_map]
    exact (List.map_congr_left (fun c _ => mk_toList c)).trans (List.map_id t.columns)
  have hrows : (t.rows.map (fun r => r.map String.toList)).map
      (fun r => r.map String.mk ++
        List.replicate ((t.columns.map String.toList).length - r.length) "") =
      t.rows := by
    rw [List.map_map]
    have hpt : ∀ r ∈ t.rows, ((fun r => r.map String.mk ++
        List.replicate ((t.columns.map String.toList).length - r.length) "") ∘
          (fun r => r.map String.toList)) r = id r := by
      intro r hr
      simp only [Function.comp, List.length_map, (hrok r hr).1, Nat.sub_self,
        List.replicate_zero, List.append_nil, List.map_map, id]
      exact (List.map_congr_left (fun c _ => mk_toList c)).trans (List.map_id r)
    exact (List.map_congr_left hpt).trans (List.map_id t.rows)
  rw [hc, hrows]

lemma parseTable_comma_encode_tab {t : Table} (ht : t.Encodable) :
    parseTable ',' (encode '\t' t) = some (collapseTab t) := by
  obtain ⟨hcne, hcok, hrok⟩ := ht
  have hfree : ∀ l ∈ (joinD '\t' (t.columns.map String.toList)) ::
      t.rows.map (fun r => joinD '\t' (r.map String.toList)), ',' ∉ l := by
    intro l hmem
    rcases List.mem_cons.mp hmem with rfl | hmem'
    · refine not_mem_joinD (by decide) ?_
      intro c hc
      obtain ⟨s, hsmem, rfl⟩ := List.mem_map.mp hc
      exact (hcok s hsmem).2.1
    · obtain ⟨r, hrmem, rfl⟩ := List.mem_map.mp hmem'
      refine not_mem_joinD (by decide) ?_
      intro c hc
      obtain ⟨s, hsmem, rfl⟩ := List.mem_map.mp hc
      exact ((hrok r hrmem).2 s hsmem).2.1
  rw [parseTable_cons ',' _ _ _ (encode_lines_shape (Or.inr rfl) ⟨hcne, hcok, hrok⟩)]
  have hhl : splitCells ',' (joinD '\t' (t.columns.map String.toList)) =
      [joinD '\t' (t.columns.map String.toList)] :=
    splitCells_no_delim (hfree _ (by simp))
  have hrows : (t.rows.map (fun r => joinD '\t' (r.map String.toList))).map
      (splitCells ',') =
      t.rows.map (fun r => [joinD '\t' (r.map String.toList)]) := by
    rw [List.map_map]
    refine List.map_congr_left ?_
    intro r hr
    exact splitCells_no_delim
      (hfree _ (List.mem_cons_of_mem _ (List.mem_map_of_mem _ hr)))
  rw [hhl, hrows]
  have hall : (t.rows.map (fun r => [joinD '\t' (r.map String.toList)])).all
      (fun r => r.length ≤ ([joinD '\t' (t.columns.map String.toList)] : List _).length) = true := by
    rw [List.all_eq_true]
    intro r' hr'
    obtain ⟨r, hr, rfl⟩ := List.mem_map.mp hr'
    simp
  rw [if_pos hall]
  unfold collapseTab
  refine congrArg some ?_
  rw [Table.mk.injEq]
  refine ⟨rfl, ?_⟩
  rw [List.map_map]
  refine List.map_congr_left ?_
  intro r _
  simp [Function.comp]

lemma collapseTab_single {t : Table} (ht : t.Encodable)
    (h1 : t.columns.length = 1) : collapseTab t = t := by
  obtain ⟨hcne, hcok, hrok⟩ := ht
  obtain ⟨c, hc⟩ : ∃ c, t.columns = [c] := by
    cases hcols : t.columns with
    | nil => rw [hcols] at h1; simp at h1
    | cons x xs =>
      rw [hcols] at h1
      simp at h1
      exact ⟨x, by rw [h1]⟩
  unfold collapseTab
  have hrows : t.rows.map (fun r => [String.mk (joinD '\t' (r.map String.toList))]) =
      t.rows := by
    have : ∀ r ∈ t.rows, [String.mk (joinD '\t' (r.map String.toList))] = r := by
      intro r hr
      have hrlen : r.length = 1 := by rw [(hrok r hr).1, h1]
      obtain ⟨s, hs⟩ : ∃ s, r = [s] := by
        cases hrr : r with
        | nil => rw [hrr] at hrlen; simp at hrlen
        | cons x xs =>
          rw [hrr] at hrlen
          simp at hrlen
          exact ⟨x, by rw [hrlen]⟩
      rw [hs]
      simp [joinD, mk_toList]
    rw [List.map_congr_left this]
    exact List.map_id t.rows
  rw [hc, hrows]
  have hone : String.mk (joinD '\t' (([c] : List String).map String.toList)) = c := rfl
  rw [hone, ← hc]

/- ## Helper lemmas: validation, decoding congruence, lexLe -/

lemma validate_ok_iff {tc pc : Table} :
    validate_data tc pc = .ok () ↔
      (tc.columns = pc.columns ∧ tc.rows.length = pc.rows.length) := by
  unfold validate_data
  by_cases hc : tc.columns = pc.columns <;>
    by_cases hr : tc.rows.length = pc.rows.length <;> simp [hc, hr]

lemma buildRow_error_of_fails {lib : MetricLib} {tc pc : Table} {i : Nat}
    (hwfT : tc.WF) (hwfP : pc.WF)
    (hcT : "answers" ∈ tc.columns) (hcP : "answers" ∈ pc.columns)
    (hiT : i < tc.rows.length) (hiP : i < pc.rows.length)
    (h : decodeFailsAt lib tc i ∨ decodeFailsAt lib pc i) :
    buildRow lib tc pc i = .error .decodeError := by
  obtain ⟨bc, hbc⟩ : ∃ bc, (dropColumn tc "answear_bbox").rows[i]? = some bc := by
    have hdl : i < (dropColumn tc "answear_bbox").rows.length := by
      rw [dropColumn_rows_length]
      exact hiT
    exact ⟨(dropColumn tc "answear_bbox").rows[i], List.getElem?_eq_getElem hdl⟩
  obtain ⟨sP, hsp⟩ := getCell_isSome hwfP hcP hiP
  unfold buildRow
  rw [hbc, hsp]
  simp only [bind, Except.bind]
  by_cases hT : decodeFailsAt lib tc i
  · rw [decodeAt_error_of_fails hT]
  · have hfP : decodeFailsAt lib pc i := h.resolve_left hT
    obtain ⟨yT, hyT⟩ := decodeAt_isOk_of_not_fails hwfT hcT hiT hT
    rw [hyT, decodeAt_error_of_fails hfP]

lemma decodeAt_congr {lib : MetricLib} {t1 t2 : Table} {i j : Nat}
    (h : getCell t1 "answers" i = getCell t2 "answers" j) :
    decodeAt lib t1 i = decodeAt lib t2 j := by
  unfold decodeAt
  rw [h]

lemma charListLtB_iff : ∀ as bs : List Char,
    charListLtB as bs = true ↔ List.lt as bs := by
  intro as
  induction as with
  | nil =>
    intro bs
    cases bs with
    | nil =>
      simp only [charListLtB, Bool.false_eq_true, false_iff]
      intro h
      cases h
    | cons b bs' =>
      simp only [charListLtB, true_iff]
      exact List.lt.nil b bs'
  | cons a as ih =>
    intro bs
    cases bs with
    | nil =>
      simp only [charListLtB, Bool.false_eq_true, false_iff]
      intro h
      cases h
    | cons b bs' =>
      simp only [charListLtB]
      by_cases h1 : a < b
      · simp only [h1, if_pos, true_iff]
        exact List.lt.head _ _ h1
      · rw [if_neg h1]
        by_cases h2 : b < a
        · simp only [h2, if_pos, Bool.false_eq_true, false_iff]
          intro h
          cases h with
          | head _ _ hlt => exact h1 hlt
          | tail hab hba _ => exact hba h2
        · rw [if_neg h2, ih bs']
          constructor
          · intro h
            exact List.lt.tail h1 h2 h
          · intro h
            cases h with
            | head _ _ hlt => exact absurd hlt h1
            | tail _ _ htl => exact htl

lemma strLtB_iff (a b : String) : strLtB a b = true ↔ a < b := by
  have h1 : a < b ↔ List.Lex (· < ·) a.toList b.toList := String.lt_iff_toList_lt
  rw [h1, ← List.lt_iff_lex_lt]
  exact charListLtB_iff a.toList b.toList

lemma strLeB_iff (a b : String) : strLeB a b = true ↔ a ≤ b := by
  unfold strLeB
  rw [Bool.not_eq_true']
  constructor
  · intro h
    rw [← not_lt]
    intro hba
    rw [← strLtB_iff] at hba
    rw [h] at hba
    cases hba
  · intro h
    cases hlt : strLtB b a with
    | false => rfl
    | true => exact absurd ((strLtB_iff b a).mp hlt) (not_lt.mpr h)

lemma lexLe_iff (a b : String × String) :
    lexLe a b = true ↔ (a.1 < b.1 ∨ (a.1 = b.1 ∧ a.2 ≤ b.2)) := by
  simp [lexLe, Bool.or_eq_true, Bool.and_eq_true, strLtB_iff, strLeB_iff,
    beq_iff_eq]

lemma lexLe_trans : ∀ x y z : String × String,
    lexLe x y = true → lexLe y z = true → lexLe x z = true := by
  intro x y z hxy hyz
  rw [lexLe_iff] at *
  rcases hxy with h1 | ⟨h1, h2⟩ <;> rcases hyz with h3 | ⟨h3, h4⟩
  · exact Or.inl (lt_trans h1 h3)
  · exact Or.inl (h3 ▸ h1)
  · exact Or.inl (h1 ▸ h3)
  · exact Or.inr ⟨h1.trans h3, le_trans h2 h4⟩

lemma lexLe_total : ∀ x y : String × String,
    lexLe x y = false → lexLe y x = true := by
  intro x y h
  rw [lexLe_iff]
  have h' : ¬ (x.1 < y.1 ∨ (x.1 = y.1 ∧ x.2 ≤ y.2)) := by
    intro hc
    rw [← lexLe_iff] at hc
    rw [h] at hc
    cases hc
  push_neg at h'
  obtain ⟨h1, h2⟩ := h'
  rcases lt_trichotomy y.1 x.1 with hlt | heq | hgt
  · exact Or.inl hlt
  · refine Or.inr ⟨heq, ?_⟩
    exact le_of_lt (h2 heq.symm)
  · exact absurd hgt h1

/- ## Claim theorems -/

/-- C3: validation, run immediately after loading both tables at
construction, fails with `SchemaMismatchError` iff the two tables' column
name sequences differ (order-sensitive), fails with `RowCountMismatchError`
iff the column sequences match but the row counts differ, and when columns
and row counts both match construction succeeds with no validation error. -/
theorem c3_validation (tc pc : Table) :
    (validate_data tc pc = .error .schemaMismatch ↔ tc.columns ≠ pc.columns) ∧
    (validate_data tc pc = .error .rowCountMismatch ↔
      (tc.columns = pc.columns ∧ tc.rows.length ≠ pc.rows.length)) ∧
    (validate_data tc pc = .ok () ↔
      (tc.columns = pc.columns ∧ tc.rows.length = pc.rows.length)) ∧
    (∀ t1 p1, read_file t1 = .ok tc → read_file p1 = .ok pc →
      (MetricEvaluator.init t1 p1 = .ok (tc, pc) ↔
        validate_data tc pc = .ok ())) := by
  refine ⟨?_, ?_, validate_ok_iff, ?_⟩
  · unfold validate_data
    by_cases hc : tc.columns = pc.columns <;>
      by_cases hr : tc.rows.length = pc.rows.length <;> simp [hc, hr]
  · unfold validate_data
    by_cases hc : tc.columns = pc.columns <;>
      by_cases hr : tc.rows.length = pc.rows.length <;> simp [hc, hr]
  · intro t1 p1 h1 h2
    unfold MetricEvaluator.init
    simp only [bind, Except.bind, h1, h2]
    cases hv : validate_data tc pc with
    | error e => simp [hv]
    | ok u => cases u; simp [hv]

/-- C3 witness: a matching pair validates and constructs. -/
theorem c3_validation_witness :
    validate_data twoColTable twoColTable = .ok () ∧
    MetricEvaluator.init "a,b\n1,2" "a,b\n1,2" = .ok (twoColTable, twoColTable) := by
  refine ⟨(c3_validation twoColTable twoColTable).2.2.1.mpr ⟨rfl, rfl⟩, ?_⟩
  exact ((c3_validation twoColTable twoColTable).2.2.2 "a,b\n1,2" "a,b\n1,2"
    (by decide) (by decide)).mpr
    ((c3_validation twoColTable twoColTable).2.2.1.mpr ⟨rfl, rfl⟩)

/-- C6: loading attempts comma-delimited parsing first; only when comma
parsing fails to yield a table does it fall back to tab-delimited parsing;
when neither delimiter yields a table, loading fails with `FormatError`. -/
theorem c6_delimiter_fallback (content : String) :
    (∀ t, parseTable ',' content = some t → read_file content = .ok t) ∧
    (parseTable ',' content = none →
      ∀ t, parseTable '\t' content = some t → read_file content = .ok t) ∧
    (parseTable ',' content = none → parseTable '\t' content = none →
      read_file content = .error .formatError) := by
  refine ⟨?_, ?_, ?_⟩
  · intro t h
    unfold read_file
    rw [h]
  · intro hc t h
    unfold read_file
    rw [hc, h]
  · intro hc ht
    unfold read_file
    rw [hc, ht]

/-- C6 witness: a comma file loads as comma; a file whose comma parse fails
loads by the tab fallback; an empty file fails with `FormatError`. -/
theorem c6_delimiter_fallback_witness :
    read_file "a,b\n1,2" = .ok twoColTable ∧
    read_file "a\tb\n1,2\t3" = .ok ⟨["a", "b"], [["1,2", "3"]]⟩ ∧
    read_file "" = .error .formatError := by
  refine ⟨?_, ?_, ?_⟩
  · exact (c6_delimiter_fallback "a,b\n1,2").1 twoColTable (by decide)
  · exact (c6_delimiter_fallback "a\tb\n1,2\t3").2.1 (by decide)
      ⟨["a", "b"], [["1,2", "3"]]⟩ (by decide)
  · exact (c6_delimiter_fallback "").2.2 (by decide) (by decide)

/-- C7 counterexample: the two-column table `a,b / 1,2` loads faithfully
from its comma encoding, but its tab encoding parses successfully as a
one-column comma table, so the two loads differ. -/
theorem c7_counterexample :
    read_file (encode ',' twoColTable) = .ok twoColTable ∧
    read_file (encode '\t' twoColTable) = .ok ⟨["a\tb"], [["1\t2"]]⟩ ∧
    (⟨["a\tb"], [["1\t2"]]⟩ : Table) ≠ twoColTable := by
  decide

/-- C7 amended: for a delimiter-free encodable table, the comma encoding
loads back to the table itself, but the tab encoding is successfully parsed
as comma-delimited into the collapsed one-column table, which coincides with
the original only in the single-column case. -/
theorem c7_amended_loading (t : Table) (ht : t.Encodable) :
    read_file (encode ',' t) = .ok t ∧
    read_file (encode '\t' t) = .ok (collapseTab t) ∧
    (t.columns.length = 1 → read_file (encode '\t' t) = .ok t) := by
  have h1 := parseTable_encode_self (Or.inl rfl) ht
  have h2 := parseTable_comma_encode_tab ht
  refine ⟨?_, ?_, ?_⟩
  · unfold read_file
    rw [h1]
  · unfold read_file
    rw [h2]
  · intro hone
    unfold read_file
    rw [h2, collapseTab_single ht hone]

/-- C7 witness: the amended statement evaluated on a two-column and a
one-column table. -/
theorem c7_amended_loading_witness :
    read_file (encode ',' twoColTable) = .ok twoColTable ∧
    read_file (encode '\t' twoColTable) = .ok (collapseTab twoColTable) ∧
    read_file (encode '\t' oneColTable) = .ok oneColTable := by
  refine ⟨(c7_amended_loading twoColTable (by decide)).1,
    (c7_amended_loading twoColTable (by decide)).2.1,
    (c7_amended_loading oneColTable (by decide)).2.2 (by decide)⟩

/-- C1: for every validated reference/prediction pair whose answers fields
all decode, `calculate_metrics_by_id` succeeds and returns a table with
exactly as many rows as the input, the `i`-th output row derived from the
`i`-th input row, whose columns are the reference columns minus
`answear_bbox` plus the four derived fields. -/
theorem c1_per_row_shape (lib : MetricLib) (tc pc : Table)
    (hv : validate_data tc pc = .ok ())
    (hwfT : tc.WF) (hwfP : pc.WF)
    (hcT : "answers" ∈ tc.columns)
    (hdec : ∀ i < tc.rows.length,
      ¬ decodeFailsAt lib tc i ∧ ¬ decodeFailsAt lib pc i) :
    ∃ r, calculate_metrics_by_id lib tc pc = .ok r ∧
      r.rows.length = tc.rows.length ∧
      r.columns = tc.columns.filter (fun c => c ≠ "answear_bbox") ++
        ["pred_answers", "wer_error", "cer_error", "bleu_score"] ∧
      ∀ i < tc.rows.length, ∃ cells, r.rows[i]? = some cells ∧
        buildRow lib tc pc i = .ok cells := by
  obtain ⟨hcols, hlen⟩ := validate_ok_iff.mp hv
  have hcP : "answers" ∈ pc.columns := hcols ▸ hcT
  obtain ⟨r, hr⟩ := calculate_ok_of_not_fails hwfT hwfP hcT hcP (by omega) hdec
  obtain ⟨h1, h2, h3⟩ := calculate_ok_parts hr
  exact ⟨r, hr, h2, h1, h3⟩

/-- C1 witness: the shape theorem evaluated on a concrete one-row pair. -/
theorem c1_per_row_shape_witness :
    ∃ r, calculate_metrics_by_id sampleLib refOneRow predOneRow = .ok r ∧
      r.rows.length = refOneRow.rows.length ∧
      r.columns = refOneRow.columns.filter (fun c => c ≠ "answear_bbox") ++
        ["pred_answers", "wer_error", "cer_error", "bleu_score"] ∧
      ∀ i < refOneRow.rows.length, ∃ cells, r.rows[i]? = some cells ∧
        buildRow sampleLib refOneRow predOneRow i = .ok cells :=
  c1_per_row_shape sampleLib refOneRow predOneRow (by decide) (by decide)
    (by decide) (by decide) (by decide)

/-- C8: for well-formed validated tables, per-row computation fails with
`DecodeError` iff some row's answers field (reference or prediction side)
does not decode as a serialized string sequence, and `DecodeError` is the
only possible failure; on failure the whole computation returns an error,
never a partial table. -/
theorem c8_decode_error (lib : MetricLib) (tc pc : Table)
    (hwfT : tc.WF) (hwfP : pc.WF)
    (hcT : "answers" ∈ tc.columns) (hcP : "answers" ∈ pc.columns)
    (hlen : pc.rows.length = tc.rows.length) :
    (calculate_metrics_by_id lib tc pc = .error .decodeError ↔
      ∃ i < tc.rows.length, decodeFailsAt lib tc i ∨ decodeFailsAt lib pc i) ∧
    (∀ e, calculate_metrics_by_id lib tc pc = .error e → e = .decodeError) := by
  constructor
  · constructor
    · intro h
      unfold calculate_metrics_by_id at h
      cases hm : mapME (buildRow lib tc pc) (List.range tc.rows.length) with
      | ok rows => rw [hm] at h; cases h
      | error e =>
        rw [hm] at h
        cases h
        obtain ⟨i, hi, hbr⟩ := mapME_error_mem hm
        rw [List.mem_range] at hi
        obtain ⟨_, hfails⟩ := buildRow_error_cases hwfT hwfP hcT hcP hi
          (by omega) hbr
        exact ⟨i, hi, hfails⟩
    · rintro ⟨i, hi, hf⟩
      have hm : mapME (buildRow lib tc pc) (List.range tc.rows.length) =
          .error .decodeError := by
        apply mapME_error_of_mem
        · intro j hj
          rw [List.mem_range] at hj
          by_cases hfj : decodeFailsAt lib tc j ∨ decodeFailsAt lib pc j
          · exact Or.inl (buildRow_error_of_fails hwfT hwfP hcT hcP hj
              (by omega) hfj)
          · push_neg at hfj
            exact Or.inr (buildRow_ok_of_not_fails hwfT hwfP hcT hcP hj
              (by omega) hfj.1 hfj.2)
        · exact ⟨i, List.mem_range.mpr hi,
            buildRow_error_of_fails hwfT hwfP hcT hcP hi (by omega) hf⟩
      unfold calculate_metrics_by_id
      rw [hm]
  · intro e he
    unfold calculate_metrics_by_id at he
    cases hm : mapME (buildRow lib tc pc) (List.range tc.rows.length) with
    | ok rows => rw [hm] at he; cases he
    | error e' =>
      rw [hm] at he
      cases he
      obtain ⟨i, hi, hbr⟩ := mapME_error_mem hm
      rw [List.mem_range] at hi
      exact (buildRow_error_cases hwfT hwfP hcT hcP hi (by omega) hbr).1

/-- C8 witness: a prediction row with an undecodable answers field makes the
whole per-row computation abort with `DecodeError`. -/
theorem c8_decode_error_witness :
    calculate_metrics_by_id sampleLib refOneRow predBadRow =
      .error .decodeError :=
  (c8_decode_error sampleLib refOneRow predBadRow (by decide) (by decide)
    (by decide) (by decide) (by decide)).1.mpr
    ⟨0, by decide, Or.inr ⟨"bad", rfl, rfl⟩⟩

/-- C10: the metric triple of output row `i` depends only on the two answers
cells at index `i`: two runs over dataset pairs that agree on those two
cells produce the same wer/cer/bleu values at `i`, whatever the rest of the
tables contain. -/
theorem c10_row_independence (lib : MetricLib) (tc1 pc1 tc2 pc2 : Table)
    (r1 r2 : RTable) (i : Nat)
    (h1 : calculate_metrics_by_id lib tc1 pc1 = .ok r1)
    (h2 : calculate_metrics_by_id lib tc2 pc2 = .ok r2)
    (hi1 : i < tc1.rows.length) (hi2 : i < tc2.rows.length)
    (hansT : getCell tc1 "answers" i = getCell tc2 "answers" i)
    (hansP : getCell pc1 "answers" i = getCell pc2 "answers" i) :
    ∃ m, (∃ cells, r1.rows[i]? = some cells ∧ rowMetricCells cells = some m) ∧
      (∃ cells, r2.rows[i]? = some cells ∧ rowMetricCells cells = some m) := by
  obtain ⟨-, -, hidx1⟩ := calculate_ok_parts h1
  obtain ⟨-, -, hidx2⟩ := calculate_ok_parts h2
  obtain ⟨cells1, hc1, hb1⟩ := hidx1 i hi1
  obtain ⟨cells2, hc2, hb2⟩ := hidx2 i hi2
  obtain ⟨bc1, sP1, yT1, yP1, -, -, hyT1, hyP1, rfl⟩ := buildRow_eq_ok hb1
  obtain ⟨bc2, sP2, yT2, yP2, -, -, hyT2, hyP2, rfl⟩ := buildRow_eq_ok hb2
  have heT : yT1 = yT2 := by
    have := (@decodeAt_congr lib _ _ _ _ hansT) ▸ hyT1
    rw [hyT2] at this
    exact (Except.ok.inj this).symm
  have heP : yP1 = yP2 := by
    have := (@decodeAt_congr lib _ _ _ _ hansP) ▸ hyP1
    rw [hyP2] at this
    exact (Except.ok.inj this).symm
  subst heT heP
  exact ⟨(lib.wer yT1 yP1, lib.cer yT1 yP1, lib.corpus_bleu yT1 [yP1]),
    ⟨_, hc1, rowMetricCells_of_row⟩, ⟨_, hc2, rowMetricCells_of_row⟩⟩

/-- C10 witness: two one-row runs with identical answers cells but different
ids, document classes and question types produce identical metric triples at
row 0. -/
theorem c10_row_independence_witness :
    ∃ r1 r2 m,
      calculate_metrics_by_id sampleLib refOneRow predOneRow = .ok r1 ∧
      calculate_metrics_by_id sampleLib
        ⟨sampleColumns, [["9", "receipt", "other", "['hello world']", "[]"]]⟩
        ⟨sampleColumns, [["9", "receipt", "other", "['hello']", "[]"]]⟩ = .ok r2 ∧
      (∃ cells, r1.rows[0]? = some cells ∧ rowMetricCells cells = some m) ∧
      (∃ cells, r2.rows[0]? = some cells ∧ rowMetricCells cells = some m) := by
  obtain ⟨m, hm1, hm2⟩ := c10_row_independence sampleLib refOneRow predOneRow
    ⟨sampleColumns, [["9", "receipt", "other", "['hello world']", "[]"]]⟩
    ⟨sampleColumns, [["9", "receipt", "other", "['hello']", "[]"]]⟩ _ _ 0
    rfl rfl (by decide) (by decide) rfl rfl
  exact ⟨_, _, m, rfl, rfl, hm1, hm2⟩

/-- C4: on a one-row dataset pair, the three corpus-level metrics returned by
`calculate_metrics_general` coincide with the wer/cer/bleu cells that
`calculate_metrics_by_id` computes for that single row. -/
theorem c4_general_single_row (lib : MetricLib) (tc pc : Table) (r : RTable)
    (h1 : tc.rows.length = 1)
    (h2 : calculate_metrics_by_id lib tc pc = .ok r) :
    ∃ cells m, r.rows = [cells] ∧ rowMetricCells cells = some m ∧
      calculate_metrics_general lib tc pc = .ok m := by
  obtain ⟨-, hlen, hidx⟩ := calculate_ok_parts h2
  obtain ⟨cells, hcell, hbr⟩ := hidx 0 (by omega)
  obtain ⟨bc, sP, yT, yP, -, -, hyT, hyP, rfl⟩ := buildRow_eq_ok hbr
  have hrows : r.rows = [bc.map Cell.str ++
      [Cell.str sP, Cell.num (lib.wer yT yP), Cell.num (lib.cer yT yP),
       Cell.num (lib.corpus_bleu yT [yP])]] := by
    have hl : r.rows.length = 1 := by omega
    cases hrr : r.rows with
    | nil => rw [hrr] at hl; cases hl
    | cons x xs =>
      rw [hrr] at hl hcell
      simp only [List.length_cons] at hl
      have hxs : xs = [] := List.length_eq_zero.mp (by omega)
      simp only [List.getElem?_cons_zero] at hcell
      rw [hxs]
      cases hcell
      rfl
  refine ⟨_, (lib.wer yT yP, lib.cer yT yP, lib.corpus_bleu yT [yP]),
    hrows, rowMetricCells_of_row, ?_⟩
  unfold calculate_metrics_general
  rw [h1]
  have hrange : List.range 1 = [0] := rfl
  rw [hrange]
  have hcb : collectBoth lib tc pc [0] = .ok (yT, yP) := by
    unfold collectBoth
    rw [hyT, hyP]
    simp only [bind, Except.bind]
    unfold collectBoth
    simp
  rw [hcb]

/-- C4 witness: the single-row agreement evaluated on a concrete pair. -/
theorem c4_general_single_row_witness :
    ∃ r cells m,
      calculate_metrics_by_id sampleLib refOneRow predOneRow = .ok r ∧
      r.rows = [cells] ∧ rowMetricCells cells = some m ∧
      calculate_metrics_general sampleLib refOneRow predOneRow = .ok m := by
  obtain ⟨cells, m, hc, hm, hg⟩ :=
    c4_general_single_row sampleLib refOneRow predOneRow _ rfl rfl
  exact ⟨_, cells, m, rfl, hc, hm, hg⟩

/-- C5: `calculate_metrics_by_doc_type` emits exactly one row per distinct
`doc_class` value, holding the mean of each metric over the rows of that
class, with groups ordered by descending frequency and ties kept in
first-seen order. -/
theorem c5_doc_type_grouping (df : List MRow) :
    ((calculate_metrics_by_doc_type df).map (·.doc_class)).Nodup ∧
    (∀ c, c ∈ (calculate_metrics_by_doc_type df).map (·.doc_class) ↔
      c ∈ df.map (·.doc_class)) ∧
    (∀ g ∈ calculate_metrics_by_doc_type df,
      g.wer_error = meanOf (·.wer_error)
        (df.filter (fun r => r.doc_class = g.doc_class)) ∧
      g.cer_error = meanOf (·.cer_error)
        (df.filter (fun r => r.doc_class = g.doc_class)) ∧
      g.bleu_score = meanOf (·.bleu_score)
        (df.filter (fun r => r.doc_class = g.doc_class))) ∧
    ((calculate_metrics_by_doc_type df).map (·.doc_class)).Pairwise
      (fun a b => (df.map (·.doc_class)).count b ≤
        (df.map (·.doc_class)).count a) ∧
    (∀ k : Nat, ((calculate_metrics_by_doc_type df).map (·.doc_class)).filter
        (fun v => (df.map (·.doc_class)).count v = k) =
      (firstSeen (df.map (·.doc_class))).filter
        (fun v => (df.map (·.doc_class)).count v = k)) := by
  have hmap : (calculate_metrics_by_doc_type df).map (·.doc_class) =
      value_counts (df.map (·.doc_class)) := by
    simp only [calculate_metrics_by_doc_type, List.map_map]
    exact (List.map_congr_left (fun c _ => rfl)).trans (List.map_id _)
  refine ⟨?_, ?_, ?_, ?_, ?_⟩
  · rw [hmap]
    exact nodup_value_counts _
  · intro c
    rw [hmap]
    exact mem_value_counts
  · intro g hg
    simp only [calculate_metrics_by_doc_type] at hg
    obtain ⟨c, hc, rfl⟩ := List.mem_map.mp hg
    exact ⟨rfl, rfl, rfl⟩
  · rw [hmap]
    exact pairwise_value_counts _
  · intro k
    rw [hmap]
    exact value_counts_stable _ k

/-- C5 witness: the grouping theorem evaluated on a concrete three-row
table with two classes; the most frequent class comes first. -/
theorem c5_doc_type_grouping_witness :
    (calculate_metrics_by_doc_type sampleMRows)[0]? = some
      ⟨"invoice",
       meanOf (·.wer_error) (sampleMRows.filter (fun r => r.doc_class = "invoice")),
       meanOf (·.cer_error) (sampleMRows.filter (fun r => r.doc_class = "invoice")),
       meanOf (·.bleu_score) (sampleMRows.filter (fun r => r.doc_class = "invoice"))⟩ ∧
    (⟨"invoice",
      meanOf (·.wer_error) (sampleMRows.filter (fun r => r.doc_class = "invoice")),
      meanOf (·.cer_error) (sampleMRows.filter (fun r => r.doc_class = "invoice")),
      meanOf (·.bleu_score) (sampleMRows.filter (fun r => r.doc_class = "invoice"))⟩ :
        GroupRow).wer_error =
      meanOf (·.wer_error) (sampleMRows.filter (fun r => r.doc_class = "invoice")) ∧
    ((calculate_metrics_by_doc_type sampleMRows).map (·.doc_class)).Nodup := by
  have h0 : (calculate_metrics_by_doc_type sampleMRows)[0]? = some
      ⟨"invoice",
       meanOf (·.wer_error) (sampleMRows.filter (fun r => r.doc_class = "invoice")),
       meanOf (·.cer_error) (sampleMRows.filter (fun r => r.doc_class = "invoice")),
       meanOf (·.bleu_score) (sampleMRows.filter (fun r => r.doc_class = "invoice"))⟩ :=
    rfl
  exact ⟨h0,
    ((c5_doc_type_grouping sampleMRows).2.2.1 _ (List.getElem?_mem h0)).1,
    (c5_doc_type_grouping sampleMRows).1⟩

/-- C9: `group_by_doc_question` returns one row per distinct
(doc_class, question_type) pair present in the input, holding the mean of
each metric over that pair's rows, sorted lexicographically by key. -/
theorem c9_doc_question_grouping (df : List MRow) :
    ((group_by_doc_question df).map
      (fun g => (g.doc_class, g.question_type))).Nodup ∧
    (∀ p : String × String,
      p ∈ (group_by_doc_question df).map
        (fun g => (g.doc_class, g.question_type)) ↔
      p ∈ df.map (fun r => (r.doc_class, r.question_type))) ∧
    (∀ g ∈ group_by_doc_question df,
      g.wer_error = meanOf (·.wer_error) (df.filter
        (fun r => r.doc_class = g.doc_class ∧
          r.question_type = g.question_type)) ∧
      g.cer_error = meanOf (·.cer_error) (df.filter
        (fun r => r.doc_class = g.doc_class ∧
          r.question_type = g.question_type)) ∧
      g.bleu_score = meanOf (·.bleu_score) (df.filter
        (fun r => r.doc_class = g.doc_class ∧
          r.question_type = g.question_type))) ∧
    ((group_by_doc_question df).map
      (fun g => (g.doc_class, g.question_type))).Pairwise
        (fun a b => a.1 < b.1 ∨ (a.1 = b.1 ∧ a.2 ≤ b.2)) := by
  have hmap : (group_by_doc_question df).map
      (fun g => (g.doc_class, g.question_type)) =
      insSort lexLe (firstSeen
        (df.map (fun r => (r.doc_class, r.question_type)))) := by
    simp only [group_by_doc_question, List.map_map]
    exact (List.map_congr_left (fun k _ => rfl)).trans (List.map_id _)
  refine ⟨?_, ?_, ?_, ?_⟩
  · rw [hmap]
    exact ((insSort_perm _ _).nodup_iff).mpr (nodup_firstSeen _)
  · intro p
    rw [hmap]
    exact ((insSort_perm _ _).mem_iff).trans (mem_firstSeen _ p)
  · intro g hg
    simp only [group_by_doc_question] at hg
    obtain ⟨k, hk, rfl⟩ := List.mem_map.mp hg
    exact ⟨rfl, rfl, rfl⟩
  · rw [hmap]
    exact (pairwise_insSort lexLe_trans lexLe_total _).imp
      (fun h => (lexLe_iff _ _).mp h)

/-- C9 witness: the pair-grouping theorem evaluated on a concrete table;
the lexicographically least key comes first. -/
theorem c9_doc_question_grouping_witness :
    (group_by_doc_question sampleMRows)[0]? = some
      ⟨"invoice", "q1",
       meanOf (·.wer_error) (sampleMRows.filter
         (fun r => r.doc_class = "invoice" ∧ r.question_type = "q1")),
       meanOf (·.cer_error) (sampleMRows.filter
         (fun r => r.doc_class = "invoice" ∧ r.question_type = "q1")),
       meanOf (·.bleu_score) (sampleMRows.filter
         (fun r => r.doc_class = "invoice" ∧ r.question_type = "q1"))⟩ ∧
    ((group_by_doc_question sampleMRows).map
      (fun g => (g.doc_class, g.question_type))).Pairwise
        (fun a b => a.1 < b.1 ∨ (a.1 = b.1 ∧ a.2 ≤ b.2)) := by
  have h0 : (group_by_doc_question sampleMRows)[0]? = some
      ⟨"invoice", "q1",
       meanOf (·.wer_error) (sampleMRows.filter
         (fun r => r.doc_class = "invoice" ∧ r.question_type = "q1")),
       meanOf (·.cer_error) (sampleMRows.filter
         (fun r => r.doc_class = "invoice" ∧ r.question_type = "q1")),
       meanOf (·.bleu_score) (sampleMRows.filter
         (fun r => r.doc_class = "invoice" ∧ r.question_type = "q1"))⟩ := rfl
  exact ⟨h0, (c9_doc_question_grouping sampleMRows).2.2.2⟩

/-- C2, code evaluated at the failing input: the per-row BLEU value is
`corpus_bleu Y_true [y_pred]` — the decoded REFERENCE answers occupy
sacrebleu's first argument (the system/hypothesis stream) and the decoded
PREDICTED answers are wrapped as the single reference stream — for every
choice of metric functions, the opposite of the roles the claim states. -/
theorem c2_bleu_argument_order (w c : List String → List String → ℚ)
    (b : List String → List (List String) → ℚ) :
    calculate_metrics_by_id ⟨w, c, b, pyListDecode⟩ refOneRow predOneRow =
      .ok ⟨["id", "doc_class", "question_type", "answers",
            "pred_answers", "wer_error", "cer_error", "bleu_score"],
           [[Cell.str "1", Cell.str "invoice", Cell.str "extraction",
             Cell.str "['hello world']", Cell.str "['hello']",
             Cell.num (w ["hello world"] ["hello"]),
             Cell.num (c ["hello world"] ["hello"]),
             Cell.num (b ["hello world"] [["hello"]])]]⟩ := rfl

end MetricEvaluatorModel
